import Mathlib

/-!
Shallow embedding of `src/python/unpack_firmware.py` (SFAnalyzer).

The pieces of the program are modelled as executable Lean functions:

* strings: the Python substring test (`x in s`), `lower`, and `endswith`
  are re-implemented over `List Char`;
* paths: a `Path` is its list of components; the pathlib operations
  `name`, `parent`, `stem`, and `with_suffix` are re-implemented on it;
* the filesystem is an explicit association list of files (path, contents)
  plus a list of directories, threaded through every operation;
* the outside world (the `file` command, the gzip/tar libraries, extraction
  tools, `os.access`) is an `Env` record of oracle functions; a `none` or
  `false` answer stands for the non-zero exit code or the exception the
  Python code observes at that call site;
* every warning and error print and every tool check or invocation is
  recorded in an event trace so that ordering and logging claims can be
  stated.

The functions `extract_nested_archives`, `recursive_extract`,
`cleanup_output_dir` and the executable-collection loop of `unpack_firmware`
keep their source names.  Directory enumeration (`rglob`) is modelled as a
snapshot of the files currently under the directory; `rglob` of a
non-directory yields nothing, matching pathlib.
-/

namespace SFA

/-! ### Strings: Python `.lower()`, `in`, `.endswith()` -/

/-- ASCII lower-casing of one character, as the Python `lower` does on the
    ASCII range (the only range the matched patterns use). -/
def lowerChar (c : Char) : Char :=
  if 65 ≤ c.toNat ∧ c.toNat ≤ 90 then Char.ofNat (c.toNat + 32) else c

/-- Python `lower` on a string. -/
def lowerStr (s : String) : String := String.mk (s.toList.map lowerChar)

/-- Does `pat` occur as a contiguous segment of `s`?  (Python `pat in s`.) -/
def containsSegList (pat : List Char) : List Char → Bool
  | [] => pat.isEmpty
  | c :: cs => pat.isPrefixOf (c :: cs) || containsSegList pat cs

/-- Python substring test `pat in s` on strings. -/
def strContainsSeg (s pat : String) : Bool := containsSegList pat.toList s.toList

/-- Python `any` of the substring test over a pattern list. -/
def containsAny (s : String) (pats : List String) : Bool :=
  pats.any (fun pat => strContainsSeg s pat)

/-- Python `endswith`. -/
def strEndsWith (s suf : String) : Bool := suf.toList.isSuffixOf s.toList

/-! ### Paths: `pathlib.Path` as a list of components -/

/-- A filesystem path, as its list of components. -/
abbrev Path := List String

/-- The components joined with slashes (Python `str` of the path); the
    markers are matched against this string. -/
def pathStr (p : Path) : String := String.intercalate "/" p

/-- Pathlib `name`: the final component. -/
def nameOf (p : Path) : String := (p.getLast?).getD ""

/-- Pathlib `parent`: all but the final component. -/
def parentOf (p : Path) : Path := p.dropLast

/-- Index of the last dot in a character list, if any (CPython
    `rfind` of the dot character), counting from offset `i`. -/
def rfindDotAux : List Char → Nat → Option Nat
  | [], _ => none
  | c :: cs, i =>
    match rfindDotAux cs (i + 1) with
    | some j => some j
    | none => if c = '.' then some i else none

/-- Length of the pathlib `suffix` of a file name: the part from the last
    dot, provided that dot is neither the first nor the last character. -/
def suffixLen (nm : String) : Nat :=
  match rfindDotAux nm.toList 0 with
  | some i => if 0 < i ∧ i + 1 < nm.toList.length then nm.toList.length - i else 0
  | none => 0

/-- Pathlib `with_suffix` with an empty suffix, restricted to the name:
    drop the suffix. -/
def stripLastSuffix (nm : String) : String :=
  String.mk (nm.toList.take (nm.toList.length - suffixLen nm))

/-- Pathlib `with_suffix` with an empty suffix: same parent,
    suffix-stripped name. -/
def with_suffix_empty (p : Path) : Path := parentOf p ++ [stripLastSuffix (nameOf p)]

/-- Pathlib `stem`. -/
def stemOf (p : Path) : String := stripLastSuffix (nameOf p)

/-! ### The filesystem -/

/-- File contents, abstractly. -/
abbrev Bytes := List Nat

/-- The mutable filesystem the run works on: regular files with their
    contents, and directories. -/
structure FS where
  files : List (Path × Bytes)
  dirs : List Path
deriving DecidableEq

/-- Read the bytes of a file. -/
def readFile (fs : FS) (p : Path) : Option Bytes :=
  (fs.files.find? (fun e => decide (e.1 = p))).map (fun e => e.2)

/-- Create or overwrite a file (Python `open` for writing, then write). -/
def writeFile (fs : FS) (p : Path) (data : Bytes) : FS :=
  ⟨(p, data) :: fs.files.filter (fun e => !(decide (e.1 = p))), fs.dirs⟩

/-- Pathlib `mkdir` with `exist_ok` set. -/
def mkdirFS (fs : FS) (p : Path) : FS :=
  if p ∈ fs.dirs then fs else ⟨fs.files, p :: fs.dirs⟩

/-- Is `p` strictly below `dir`? -/
def isUnder (dir p : Path) : Bool := dir.isPrefixOf p && decide (dir.length < p.length)

/-- Recursive enumeration (`rglob`) restricted to regular files, as a
    snapshot. -/
def filesUnder (fs : FS) (dir : Path) : List Path :=
  (fs.files.map (fun e => e.1)).filter (fun p => isUnder dir p)

/-! ### The outside world -/

/-- Oracles for everything the script shells out to or imports.
    `none` / `false` stands for the failure the Python code observes there
    (non-zero exit code, absent tool, or raised exception). -/
structure Env where
  /-- Output of `file -b` on a path: `some stdout` on exit code 0,
      `none` otherwise. -/
  fileOut : Path → Option String
  /-- Result of the gzip stream read by `copyfileobj`, applied to the bytes
      the file holds at the moment the copy runs (`gzip.open` is lazy, so
      that is after the output file has been truncated); `none` =
      exception. -/
  gunzip : Bytes → Option Bytes
  /-- Result of `tarfile.open` plus `extractall`: member (relative path,
      bytes) list; `none` = exception. -/
  tarMembers : Bytes → Option (List (Path × Bytes))
  /-- Whether `shutil.which` finds the tool. -/
  toolAvailable : String → Bool
  /-- Running an extraction tool on (file, target dir) exits with code 0. -/
  runTool : String → Path → Path → Bool
  /-- The `os.access` execute-permission test `X_OK`. -/
  xok : Path → Bool

/-! ### Events: the prints and calls the claims talk about -/

/-- The `[WARN]`/`[ERROR]` messages the dispatch can print. -/
inductive WarnMsg
  | gzipFailed
  | tarFailed
  | toolMissing (tool : String)
  | squashToolFailed (tool : String)
  | squashUnresolved
  | jffs2Unavailable
deriving DecidableEq

/-- Observable events of one dispatch, in program order. -/
inductive TraceEv
  | mkdirEv (p : Path)
  | toolCheck (tool : String) (avail : Bool)
  | toolRun (tool : String) (ok : Bool)
  | warnEv (w : WarnMsg)
  | writeEv (p : Path)
deriving DecidableEq

/-- Result of `extract_nested_archives`: the filesystem afterwards, the
    returned value (`some target` or `None`), and the event trace. -/
structure DispatchResult where
  fs : FS
  outcome : Option Path
  trace : List TraceEv
deriving DecidableEq

/-- The warnings contained in a trace. -/
def warnsIn (t : List TraceEv) : List WarnMsg :=
  t.filterMap (fun e => match e with | .warnEv w => some w | _ => none)

/-- The tools actually invoked in a trace. -/
def toolRunsIn (t : List TraceEv) : List String :=
  t.filterMap (fun e => match e with | .toolRun tool _ => some tool | _ => none)

/-! ### Format classification -/

/-- The discrete format signature (spec §3). -/
inductive FormatSignature
  | gzip | tar | squashfs | jffs2 | cpio | unknown
deriving DecidableEq

/-- The ordered substring table of `extract_nested_archives`, applied to the
    lower-cased `file -b` output. -/
def classifySig (file_type : String) : FormatSignature :=
  if containsAny file_type [".gz", "gzip"] then .gzip
  else if containsAny file_type [".tar", "tar archive"] then .tar
  else if strContainsSeg file_type "squashfs" then .squashfs
  else if strContainsSeg file_type "jffs2" then .jffs2
  else if strContainsSeg file_type "cpio" then .cpio
  else .unknown

/-- Classification of a file: `file -b`, lower-cased, matched against the
    table; a failing `file` command means `unknown`. -/
def classifyFile (env : Env) (p : Path) : FormatSignature :=
  match env.fileOut p with
  | none => .unknown
  | some raw => classifySig (lowerStr raw)

/-! ### Extraction dispatch -/

/-- Python `check_tool_available`: the availability test plus its
    error print when the tool is absent. -/
def check_tool_available (env : Env) (tool : String) : Bool × List TraceEv :=
  if env.toolAvailable tool then (true, [.toolCheck tool true])
  else (false, [.toolCheck tool false, .warnEv (.toolMissing tool)])

/-- The squashfs tool loop over `unsquashfs` then `sasquatch`: the first
    successful run wins; a final unresolved warning if none does. -/
def squashLoop (env : Env) (file_path subdir : Path) : List String → Option Path × List TraceEv
  | [] => (none, [.warnEv .squashUnresolved])
  | t :: ts =>
    let c := check_tool_available env t
    if c.1 then
      if env.runTool t file_path subdir then
        (some subdir, c.2 ++ [.toolRun t true])
      else
        let r := squashLoop env file_path subdir ts
        (r.1, c.2 ++ [.toolRun t false, .warnEv (.squashToolFailed t)] ++ r.2)
    else
      let r := squashLoop env file_path subdir ts
      (r.1, c.2 ++ r.2)

/-- Python `extract_nested_archives` on (file path, extract dir)
    (source lines 27-107).
    Branch order and effects follow the elif chain of the source:
    gzip → decompress to the suffix-stripped sibling; tar → `extractall`
    into `extract_dir`; squashfs → mkdir a `_squashfs` subdirectory then the
    tool loop; jffs2 → mkdir a `_jffs2` subdirectory then `jefferson` if
    available; cpio → mkdir a `_cpio` subdirectory then `cpio`; anything
    else → `None`.  Exceptions of the gzip/tar libraries are the `none`
    answers of the oracles, caught here exactly where the `try/except` of
    the source catches them. -/
def extract_nested_archives (env : Env) (fs : FS) (file_path : Path) (extract_dir : Path) :
    DispatchResult :=
  match env.fileOut file_path with
  | none => ⟨fs, none, []⟩
  | some raw =>
    let file_type := lowerStr raw
    if containsAny file_type [".gz", "gzip"] then
      -- gzip.open reads nothing up front; open(output_name, 'wb') then
      -- truncates the output before copyfileobj pulls the first byte, so
      -- the stream decompresses the file as it stands after that
      -- truncation (empty when output_name aliases file_path), and on an
      -- exception the truncated output is left behind.
      let output_name := with_suffix_empty file_path
      let fs1 := writeFile fs output_name []
      match (readFile fs1 file_path).bind env.gunzip with
      | some data => ⟨writeFile fs1 output_name data, some output_name, [.writeEv output_name]⟩
      | none => ⟨fs1, none, [.warnEv .gzipFailed]⟩
    else if containsAny file_type [".tar", "tar archive"] then
      match (readFile fs file_path).bind env.tarMembers with
      | some members =>
        ⟨members.foldl (fun acc m => writeFile acc (extract_dir ++ m.1) m.2) fs,
          some extract_dir, [.writeEv extract_dir]⟩
      | none => ⟨fs, none, [.warnEv .tarFailed]⟩
    else if strContainsSeg file_type "squashfs" then
      let subdir := extract_dir ++ [stemOf file_path ++ "_squashfs"]
      let fs1 := mkdirFS fs subdir
      let r := squashLoop env file_path subdir ["unsquashfs", "sasquatch"]
      ⟨fs1, r.1, .mkdirEv subdir :: r.2⟩
    else if strContainsSeg file_type "jffs2" then
      let subdir := extract_dir ++ [stemOf file_path ++ "_jffs2"]
      let fs1 := mkdirFS fs subdir
      let c := check_tool_available env "jefferson"
      if c.1 then
        if env.runTool "jefferson" file_path subdir then
          ⟨fs1, some subdir, .mkdirEv subdir :: c.2 ++ [.toolRun "jefferson" true]⟩
        else
          ⟨fs1, none, .mkdirEv subdir :: c.2 ++ [.toolRun "jefferson" false]⟩
      else
        ⟨fs1, none, .mkdirEv subdir :: c.2 ++ [.warnEv .jffs2Unavailable]⟩
    else if strContainsSeg file_type "cpio" then
      let subdir := extract_dir ++ [stemOf file_path ++ "_cpio"]
      let fs1 := mkdirFS fs subdir
      if env.runTool "cpio" file_path subdir then
        ⟨fs1, some subdir, [.mkdirEv subdir, .toolRun "cpio" true]⟩
      else
        ⟨fs1, none, [.mkdirEv subdir, .toolRun "cpio" false]⟩
    else ⟨fs, none, []⟩

/-! ### The recursion controller -/

/-- The extraction markers of the cycle guard. -/
def markers : List String := ["_squashfs", "_jffs2", "_cpio", ".extracted"]

/-- Whether any marker occurs in the path string (the skip test of
    `recursive_extract`). -/
def hasMarker (p : Path) : Bool := markers.any (fun m => strContainsSeg (pathStr p) m)

/-- One file visited by `recursive_extract`: the path handed to
    `extract_nested_archives`, at which `current_depth`, and whether the
    dispatch returned a target. -/
structure Visit where
  path : Path
  depth : Nat
  success : Bool
deriving DecidableEq

/-- Result of one `recursive_extract` call: final filesystem, the Python
    return value (`none` models the bare Python `return`, i.e. `None`, at the
    depth guard; `some b` models `return extracted_anything`), and every
    visit performed by the call and its recursive descendants. -/
structure RXResult where
  fs : FS
  ret : Option Bool
  visits : List Visit
deriving DecidableEq

/-- Result of the per-file loop of one `recursive_extract` call. -/
structure LoopRes where
  fs : FS
  flag : Bool
  visits : List Visit
deriving DecidableEq

/-- The `for file_path in directory.rglob("*")` body: skip marker paths,
    otherwise dispatch on the file with its parent as `extract_dir`, and on
    success recurse (`recurse`) into the returned target. -/
def rxLoop (env : Env) (recurse : FS → Path → RXResult) (curD : Nat) :
    List Path → FS → LoopRes
  | [], fs => ⟨fs, false, []⟩
  | p :: rest, fs =>
    if hasMarker p then rxLoop env recurse curD rest fs
    else
      let d := extract_nested_archives env fs p (parentOf p)
      match d.outcome with
      | none =>
        let r := rxLoop env recurse curD rest d.fs
        ⟨r.fs, r.flag, ⟨p, curD, false⟩ :: r.visits⟩
      | some tgt =>
        let sub := recurse d.fs tgt
        let r := rxLoop env recurse curD rest sub.fs
        ⟨r.fs, true, ⟨p, curD, true⟩ :: (sub.visits ++ r.visits)⟩

/-- Body of `recursive_extract` with the remaining depth budget
    `max_depth - current_depth` made explicit as a structural fuel:
    budget `0` is exactly the depth guard, whose bare `return` yields
    `ret = none`.  The theorem `recursive_extract_unfold` below shows the
    wrapper satisfies the recurrence of the source verbatim. -/
def rxGo (env : Env) (maxD : Nat) : Nat → Nat → FS → Path → RXResult
  | 0, _, fs, _ => ⟨fs, none, []⟩
  | b + 1, curD, fs, dir =>
    let r := rxLoop env (fun fs1 tgt => rxGo env maxD b (curD + 1) fs1 tgt) curD
      (filesUnder fs dir) fs
    ⟨r.fs, some r.flag, r.visits⟩

/-- Python `recursive_extract` on (directory, max depth, current depth)
    (source lines 109-129). -/
def recursive_extract (env : Env) (fs : FS) (dir : Path) (maxD curD : Nat) : RXResult :=
  rxGo env maxD (maxD - curD) curD fs dir

/-! ### The executable scanner (Step 4 of `unpack_firmware`) -/

/-- The substring indicators of the executable classifier. -/
def execIndicators : List String := ["elf", "executable", "script", "shell"]

/-- Content side of the executable test: `file -b` succeeded and its
    lower-cased output contains one of the indicators. -/
def execIndicator (env : Env) (f : Path) : Bool :=
  match env.fileOut f with
  | some raw => containsAny (lowerStr raw) execIndicators
  | none => false

/-- Whole executable test: execute permission first, then the content test
    (the nested ifs of the source collapse to this conjunction). -/
def isExecRecord (env : Env) (f : Path) : Bool := env.xok f && execIndicator env f

/-- The executable-collection loop of `unpack_firmware` (source lines
    194-210): for each root, append every file below it that passes the
    test.  The existence guard on a root is dropped because enumerating a
    missing root yields nothing in this model. -/
def collect_executables (env : Env) (fs : FS) (roots : List Path) : List Path :=
  roots.foldl (fun acc root =>
    acc ++ (filesUnder fs root).filter (fun f => isExecRecord env f)) []

/-! ### Cleanup of the output directory and the top-level step order -/

/-- What a top-level entry of the output directory can be. -/
inductive NodeKind
  | symlink | regularFile | directory
deriving DecidableEq

/-- One entry of the top level of the output directory. -/
structure DirItem where
  name : String
  kind : NodeKind
deriving DecidableEq

/-- The removal condition of `cleanup_output_dir`: a symlink, or a name
    ending in the rar or bin extension. -/
def conflicting (it : DirItem) : Bool :=
  decide (it.kind = .symlink) || strEndsWith it.name ".rar" || strEndsWith it.name ".bin"

/-- Python `cleanup_output_dir` (source lines 131-145) on the top-level
    listing: every conflicting entry is removed (`unlink` for symlinks and
    files, `rmtree` for directories — all collapse to removal from the
    listing). -/
def cleanup_output_dir (items : List DirItem) : List DirItem :=
  items.filter (fun it => !(conflicting it))

/-- The top-level phases of `unpack_firmware`, in source order. -/
inductive UStep
  | mkdirOutput
  | cleanupStep
  | prereqCheck (tool : String)
  | binwalkRun
  | nestedExtraction
  | collectStep
  | manifestWrite
deriving DecidableEq

/-- The statement order of `unpack_firmware` (source lines 147-233):
    create the output directory, clean it up, check for binwalk, run
    binwalk, recursively extract, collect executables, write the
    manifest. -/
def unpack_firmware_steps : List UStep :=
  [.mkdirOutput, .cleanupStep, .prereqCheck "binwalk", .binwalkRun,
   .nestedExtraction, .collectStep, .manifestWrite]

/-- Position of a phase in the run. -/
def stepIdx (s : UStep) : Nat :=
  unpack_firmware_steps.findIdx (fun t => decide (t = s))

/-! ### Concrete data for the evaluation theorems -/

/-- An environment where every external capability is absent or failing. -/
def trivEnv : Env :=
  ⟨fun _ => none, fun _ => none, fun _ => none, fun _ => false,
   fun _ _ _ => false, fun _ => false⟩

/-- A small tree: one plain file and one file inside extraction output. -/
def fsOne : FS :=
  ⟨[(["r", "f"], [1, 2]), (["r", "data_squashfs", "g"], [3])],
   [["r"], ["r", "data_squashfs"]]⟩

/-- A tree holding one gzip-named file. -/
def fsGz : FS := ⟨[(["r", "b.gz"], [1, 2])], [["r"]]⟩

/-- Everything looks like gzip and decompression succeeds. -/
def envGz : Env :=
  ⟨fun _ => some "gzip compressed data", fun _ => some [7, 8, 9], fun _ => none,
   fun _ => false, fun _ _ _ => false, fun _ => false⟩

/-- Everything looks like gzip; decompression maps the empty stream to
    empty output (as the real gzip module does at a clean end of stream)
    and any other content to a fixed payload. -/
def envGzEmpty : Env :=
  ⟨fun _ => some "gzip compressed data",
   fun c => if c = [] then some [] else some [7, 8, 9],
   fun _ => none, fun _ => false, fun _ _ _ => false, fun _ => false⟩

/-- Everything looks like gzip and decompression raises. -/
def envGzFail : Env :=
  ⟨fun _ => some "gzip compressed data", fun _ => none, fun _ => none,
   fun _ => false, fun _ _ _ => false, fun _ => false⟩

/-- Everything looks like a cpio archive and the cpio invocation fails. -/
def envCpioFail : Env :=
  ⟨fun _ => some "ASCII cpio archive", fun _ => none, fun _ => none,
   fun _ => true, fun _ _ _ => false, fun _ => false⟩

/-- Everything looks like squashfs; `unsquashfs` is absent and `sasquatch`
    is present and succeeds. -/
def envSquashSecond : Env :=
  ⟨fun _ => some "Squashfs filesystem", fun _ => none, fun _ => none,
   fun t => decide (t = "sasquatch"), fun t _ _ => decide (t = "sasquatch"),
   fun _ => false⟩

/-- One executable ELF file and otherwise plain text; only the ELF file is
    execute-permitted. -/
def envExec : Env :=
  ⟨fun p => if p = ["r", "f"] then some "ELF 64-bit executable" else some "ASCII text",
   fun _ => none, fun _ => none, fun _ => false, fun _ _ _ => false,
   fun p => decide (p = ["r", "f"])⟩

/-- A tree with the two files `envExec` talks about. -/
def fsExec : FS := ⟨[(["r", "f"], [0]), (["r", "t"], [1])], [["r"]]⟩

/-- A top-level listing with a kept file, a rar file and a symlink. -/
def itemsDemo : List DirItem :=
  [⟨"keep.txt", .regularFile⟩, ⟨"x.rar", .regularFile⟩, ⟨"lnk", .symlink⟩]

/-- The logging discipline claimed for the dispatch: whenever a recognized
    format fails to extract (the outcome is `None` although classification
    succeeded), some warning was printed.  `dispatch_failure_without_warning`
    below refutes this: a failing cpio or jffs2 invocation is silent. -/
def dispatchWarnsOnFailure : Prop :=
  ∀ (env : Env) (fs : FS) (p d : Path),
    classifyFile env p ≠ .unknown →
    (extract_nested_archives env fs p d).outcome = none →
    ∃ w, TraceEv.warnEv w ∈ (extract_nested_archives env fs p d).trace

/-! ### Helper lemmas: paths and suffix stripping -/

theorem string_append_toList (s t : String) : (s ++ t).toList = s.toList ++ t.toList := by
  cases s
  cases t
  rfl

theorem string_mk_toList (s : String) : String.mk s.toList = s := by
  cases s
  rfl

theorem path_decomp (p : Path) (hp : p ≠ []) : p = parentOf p ++ [nameOf p] := by
  cases hq : p.getLast? with
  | none =>
    rw [List.getLast?_eq_none_iff] at hq
    exact absurd hq hp
  | some a =>
    have hd := List.dropLast_append_getLast? a (Option.mem_def.mpr hq)
    unfold parentOf nameOf
    rw [hq]
    exact hd.symm

theorem rfindDotAux_of_no_dot :
    ∀ (cs : List Char), '.' ∉ cs → ∀ i, rfindDotAux cs i = none := by
  intro cs
  induction cs with
  | nil => intro _ i; rfl
  | cons c cs ih =>
    intro h i
    simp only [List.mem_cons, not_or] at h
    rw [rfindDotAux, ih h.2 (i + 1), if_neg (fun hc => h.1 hc.symm)]

theorem rfindDotAux_append_dot (ys : List Char) (hy : '.' ∉ ys) :
    ∀ (xs : List Char) (i : Nat), rfindDotAux (xs ++ '.' :: ys) i = some (xs.length + i) := by
  intro xs
  induction xs with
  | nil =>
    intro i
    rw [List.nil_append, rfindDotAux, rfindDotAux_of_no_dot ys hy (i + 1), if_pos rfl]
    simp
  | cons c xs ih =>
    intro i
    rw [List.cons_append, rfindDotAux, ih (i + 1)]
    simp
    omega

theorem stripLastSuffix_eq_of_toList {nm : String} {xs ys : List Char}
    (h : nm.toList = xs ++ '.' :: ys) (hx : xs ≠ []) (hy : ys ≠ []) (hdot : '.' ∉ ys) :
    stripLastSuffix nm = String.mk xs := by
  have hlen : nm.toList.length = xs.length + ys.length + 1 := by
    rw [h]
    simp [List.length_append]
    omega
  have hfind : rfindDotAux nm.toList 0 = some (xs.length + 0) := by
    rw [h]
    exact rfindDotAux_append_dot ys hdot xs 0
  have hx0 : 0 < xs.length := List.length_pos.mpr hx
  have hy0 : 0 < ys.length := List.length_pos.mpr hy
  have hsuf : suffixLen nm = nm.toList.length - xs.length := by
    simp only [suffixLen, hfind]
    rw [if_pos (by omega)]
    omega
  unfold stripLastSuffix
  rw [hsuf]
  have harith : nm.toList.length - (nm.toList.length - xs.length) = xs.length := by
    omega
  rw [harith, h, List.take_left]

theorem stripLastSuffix_of_no_dot {nm : String} (h : '.' ∉ nm.toList) :
    stripLastSuffix nm = nm := by
  have hfind := rfindDotAux_of_no_dot nm.toList h 0
  have hsuf : suffixLen nm = 0 := by
    simp only [suffixLen, hfind]
  unfold stripLastSuffix
  rw [hsuf, Nat.sub_zero, List.take_length nm.toList, string_mk_toList]

theorem stripLastSuffix_append_gz (b : String) (hb : b.toList ≠ []) :
    stripLastSuffix (b ++ ".gz") = b := by
  have h : (b ++ ".gz").toList = b.toList ++ '.' :: ['g', 'z'] := by
    rw [string_append_toList]
    rfl
  rw [stripLastSuffix_eq_of_toList h hb (by simp) (by simp), string_mk_toList]

theorem stripLastSuffix_dot_ext (b ext : String) (hb : b.toList ≠ [])
    (he : ext.toList ≠ []) (hdot : '.' ∉ ext.toList) :
    stripLastSuffix (b ++ "." ++ ext) = b := by
  have h : (b ++ "." ++ ext).toList = b.toList ++ '.' :: ext.toList := by
    rw [string_append_toList, string_append_toList]
    simp
  rw [stripLastSuffix_eq_of_toList h hb he hdot, string_mk_toList]

/-! ### Helper lemmas: the file store -/

theorem readFile_writeFile_same (fs : FS) (q : Path) (data : Bytes) :
    readFile (writeFile fs q data) q = some data := by
  simp [readFile, writeFile, List.find?]

theorem find?_filter_out (l : List (Path × Bytes)) (q q' : Path) (h : q' ≠ q) :
    (l.filter (fun e => !(decide (e.1 = q)))).find? (fun e => decide (e.1 = q')) =
      l.find? (fun e => decide (e.1 = q')) := by
  induction l with
  | nil => rfl
  | cons e l ih =>
    have hqq : ¬(q = q') := fun hq => h hq.symm
    by_cases he : e.1 = q
    · have hne : ¬(e.1 = q') := by rw [he]; exact hqq
      simp [List.filter, List.find?, he, hne, ih, hqq]
    · by_cases he' : e.1 = q'
      · simp [List.filter, List.find?, he, he', h]
      · simp [List.filter, List.find?, he, he', ih, h]

theorem readFile_writeFile_other (fs : FS) (q q' : Path) (data : Bytes) (h : q' ≠ q) :
    readFile (writeFile fs q data) q' = readFile fs q' := by
  simp only [readFile, writeFile, List.find?]
  rw [decide_eq_false (Ne.symm h)]
  simp only [Bool.false_eq_true, if_false]
  rw [find?_filter_out fs.files q q' h]

theorem filter_ne_idem (l : List (Path × Bytes)) (q : Path) :
    (l.filter (fun e => !(decide (e.1 = q)))).filter (fun e => !(decide (e.1 = q))) =
      l.filter (fun e => !(decide (e.1 = q))) := by
  induction l with
  | nil => rfl
  | cons e l ih =>
    by_cases he : e.1 = q <;> simp [List.filter, he, ih]

theorem writeFile_writeFile (fs : FS) (q : Path) (d1 d2 : Bytes) :
    writeFile (writeFile fs q d1) q d2 = writeFile fs q d2 := by
  unfold writeFile
  congr 1
  simp [List.filter, filter_ne_idem fs.files q]

theorem mem_mkdirFS (fs : FS) (p : Path) : p ∈ (mkdirFS fs p).dirs := by
  unfold mkdirFS
  by_cases h : p ∈ fs.dirs
  · rw [if_pos h]; exact h
  · rw [if_neg h]; exact List.mem_cons_self p fs.dirs

/-! ### Helper lemmas: inverting the classification -/

theorem classifyFile_gzip_elim {env : Env} {p : Path} (h : classifyFile env p = .gzip) :
    ∃ raw, env.fileOut p = some raw ∧
      containsAny (lowerStr raw) [".gz", "gzip"] = true := by
  cases henv : env.fileOut p with
  | none =>
    simp only [classifyFile, henv] at h
    exact absurd h (by decide)
  | some raw =>
    simp only [classifyFile, henv] at h
    unfold classifySig at h
    split_ifs at h with h1 h2 h3 h4 h5 <;> simp_all

theorem classifyFile_tar_elim {env : Env} {p : Path} (h : classifyFile env p = .tar) :
    ∃ raw, env.fileOut p = some raw ∧
      containsAny (lowerStr raw) [".gz", "gzip"] = false ∧
      containsAny (lowerStr raw) [".tar", "tar archive"] = true := by
  cases henv : env.fileOut p with
  | none =>
    simp only [classifyFile, henv] at h
    exact absurd h (by decide)
  | some raw =>
    simp only [classifyFile, henv] at h
    unfold classifySig at h
    split_ifs at h with h1 h2 h3 h4 h5 <;> simp_all

theorem classifyFile_squashfs_elim {env : Env} {p : Path} (h : classifyFile env p = .squashfs) :
    ∃ raw, env.fileOut p = some raw ∧
      containsAny (lowerStr raw) [".gz", "gzip"] = false ∧
      containsAny (lowerStr raw) [".tar", "tar archive"] = false ∧
      strContainsSeg (lowerStr raw) "squashfs" = true := by
  cases henv : env.fileOut p with
  | none =>
    simp only [classifyFile, henv] at h
    exact absurd h (by decide)
  | some raw =>
    simp only [classifyFile, henv] at h
    unfold classifySig at h
    split_ifs at h with h1 h2 h3 h4 h5 <;> simp_all

theorem classifyFile_jffs2_elim {env : Env} {p : Path} (h : classifyFile env p = .jffs2) :
    ∃ raw, env.fileOut p = some raw ∧
      containsAny (lowerStr raw) [".gz", "gzip"] = false ∧
      containsAny (lowerStr raw) [".tar", "tar archive"] = false ∧
      strContainsSeg (lowerStr raw) "squashfs" = false ∧
      strContainsSeg (lowerStr raw) "jffs2" = true := by
  cases henv : env.fileOut p with
  | none =>
    simp only [classifyFile, henv] at h
    exact absurd h (by decide)
  | some raw =>
    simp only [classifyFile, henv] at h
    unfold classifySig at h
    split_ifs at h with h1 h2 h3 h4 h5 <;> simp_all

theorem classifyFile_cpio_elim {env : Env} {p : Path} (h : classifyFile env p = .cpio) :
    ∃ raw, env.fileOut p = some raw ∧
      containsAny (lowerStr raw) [".gz", "gzip"] = false ∧
      containsAny (lowerStr raw) [".tar", "tar archive"] = false ∧
      strContainsSeg (lowerStr raw) "squashfs" = false ∧
      strContainsSeg (lowerStr raw) "jffs2" = false ∧
      strContainsSeg (lowerStr raw) "cpio" = true := by
  cases henv : env.fileOut p with
  | none =>
    simp only [classifyFile, henv] at h
    exact absurd h (by decide)
  | some raw =>
    simp only [classifyFile, henv] at h
    unfold classifySig at h
    split_ifs at h with h1 h2 h3 h4 h5 <;> simp_all

theorem classifyFile_unknown_elim {env : Env} {p : Path} (h : classifyFile env p = .unknown) :
    env.fileOut p = none ∨
    ∃ raw, env.fileOut p = some raw ∧
      containsAny (lowerStr raw) [".gz", "gzip"] = false ∧
      containsAny (lowerStr raw) [".tar", "tar archive"] = false ∧
      strContainsSeg (lowerStr raw) "squashfs" = false ∧
      strContainsSeg (lowerStr raw) "jffs2" = false ∧
      strContainsSeg (lowerStr raw) "cpio" = false := by
  cases henv : env.fileOut p with
  | none => exact Or.inl rfl
  | some raw =>
    simp only [classifyFile, henv] at h
    unfold classifySig at h
    split_ifs at h with h1 h2 h3 h4 h5 <;> simp_all

/-! ### Helper lemmas: the shape of each dispatch branch -/

theorem dispatch_gzip_eq {env : Env} {p : Path} (fs : FS) (d : Path)
    (h : classifyFile env p = .gzip) :
    extract_nested_archives env fs p d =
      match (readFile (writeFile fs (with_suffix_empty p) []) p).bind env.gunzip with
      | some data =>
        ⟨writeFile (writeFile fs (with_suffix_empty p) []) (with_suffix_empty p) data,
          some (with_suffix_empty p), [.writeEv (with_suffix_empty p)]⟩
      | none => ⟨writeFile fs (with_suffix_empty p) [], none, [.warnEv .gzipFailed]⟩ := by
  obtain ⟨raw, henv, hc⟩ := classifyFile_gzip_elim h
  unfold extract_nested_archives
  rw [henv]
  simp only [hc, if_true]

theorem dispatch_gzip_success_eq {env : Env} {p : Path} (fs : FS) (d : Path)
    (h : classifyFile env p = .gzip) {data : Bytes}
    (hbind : (readFile (writeFile fs (with_suffix_empty p) []) p).bind env.gunzip =
      some data) :
    extract_nested_archives env fs p d =
      ⟨writeFile fs (with_suffix_empty p) data, some (with_suffix_empty p),
        [.writeEv (with_suffix_empty p)]⟩ := by
  rw [dispatch_gzip_eq fs d h, hbind]
  show (⟨writeFile (writeFile fs (with_suffix_empty p) []) (with_suffix_empty p) data,
      some (with_suffix_empty p), [.writeEv (with_suffix_empty p)]⟩ : DispatchResult) = _
  rw [writeFile_writeFile]

theorem dispatch_gzip_failure_eq {env : Env} {p : Path} (fs : FS) (d : Path)
    (h : classifyFile env p = .gzip)
    (hbind : (readFile (writeFile fs (with_suffix_empty p) []) p).bind env.gunzip = none) :
    extract_nested_archives env fs p d =
      ⟨writeFile fs (with_suffix_empty p) [], none, [.warnEv .gzipFailed]⟩ := by
  rw [dispatch_gzip_eq fs d h, hbind]

theorem dispatch_tar_eq {env : Env} {p : Path} (fs : FS) (d : Path)
    (h : classifyFile env p = .tar) :
    extract_nested_archives env fs p d =
      match (readFile fs p).bind env.tarMembers with
      | some members =>
        ⟨members.foldl (fun acc m => writeFile acc (d ++ m.1) m.2) fs,
          some d, [.writeEv d]⟩
      | none => ⟨fs, none, [.warnEv .tarFailed]⟩ := by
  obtain ⟨raw, henv, hc1, hc2⟩ := classifyFile_tar_elim h
  unfold extract_nested_archives
  rw [henv]
  simp only [hc1, hc2, Bool.false_eq_true, if_false, if_true]

theorem dispatch_squashfs_eq {env : Env} {p : Path} (fs : FS) (d : Path)
    (h : classifyFile env p = .squashfs) :
    extract_nested_archives env fs p d =
      ⟨mkdirFS fs (d ++ [stemOf p ++ "_squashfs"]),
        (squashLoop env p (d ++ [stemOf p ++ "_squashfs"]) ["unsquashfs", "sasquatch"]).1,
        .mkdirEv (d ++ [stemOf p ++ "_squashfs"]) ::
          (squashLoop env p (d ++ [stemOf p ++ "_squashfs"]) ["unsquashfs", "sasquatch"]).2⟩ := by
  obtain ⟨raw, henv, hc1, hc2, hc3⟩ := classifyFile_squashfs_elim h
  unfold extract_nested_archives
  rw [henv]
  simp only [hc1, hc2, hc3, Bool.false_eq_true, if_false, if_true]

theorem dispatch_jffs2_eq {env : Env} {p : Path} (fs : FS) (d : Path)
    (h : classifyFile env p = .jffs2) :
    extract_nested_archives env fs p d =
      (if env.toolAvailable "jefferson" then
        if env.runTool "jefferson" p (d ++ [stemOf p ++ "_jffs2"]) then
          ⟨mkdirFS fs (d ++ [stemOf p ++ "_jffs2"]), some (d ++ [stemOf p ++ "_jffs2"]),
            [.mkdirEv (d ++ [stemOf p ++ "_jffs2"]), .toolCheck "jefferson" true,
             .toolRun "jefferson" true]⟩
        else
          ⟨mkdirFS fs (d ++ [stemOf p ++ "_jffs2"]), none,
            [.mkdirEv (d ++ [stemOf p ++ "_jffs2"]), .toolCheck "jefferson" true,
             .toolRun "jefferson" false]⟩
      else
        ⟨mkdirFS fs (d ++ [stemOf p ++ "_jffs2"]), none,
          [.mkdirEv (d ++ [stemOf p ++ "_jffs2"]), .toolCheck "jefferson" false,
           .warnEv (.toolMissing "jefferson"), .warnEv .jffs2Unavailable]⟩) := by
  obtain ⟨raw, henv, hc1, hc2, hc3, hc4⟩ := classifyFile_jffs2_elim h
  unfold extract_nested_archives check_tool_available
  rw [henv]
  simp only [hc1, hc2, hc3, hc4, Bool.false_eq_true, if_false, if_true]
  by_cases ha : env.toolAvailable "jefferson"
  · simp only [ha, if_true]
    by_cases hr : env.runTool "jefferson" p (d ++ [stemOf p ++ "_jffs2"]) <;>
      simp [hr]
  · simp [ha]

theorem dispatch_cpio_eq {env : Env} {p : Path} (fs : FS) (d : Path)
    (h : classifyFile env p = .cpio) :
    extract_nested_archives env fs p d =
      (if env.runTool "cpio" p (d ++ [stemOf p ++ "_cpio"]) then
        ⟨mkdirFS fs (d ++ [stemOf p ++ "_cpio"]), some (d ++ [stemOf p ++ "_cpio"]),
          [.mkdirEv (d ++ [stemOf p ++ "_cpio"]), .toolRun "cpio" true]⟩
      else
        ⟨mkdirFS fs (d ++ [stemOf p ++ "_cpio"]), none,
          [.mkdirEv (d ++ [stemOf p ++ "_cpio"]), .toolRun "cpio" false]⟩) := by
  obtain ⟨raw, henv, hc1, hc2, hc3, hc4, hc5⟩ := classifyFile_cpio_elim h
  unfold extract_nested_archives
  rw [henv]
  simp only [hc1, hc2, hc3, hc4, hc5, Bool.false_eq_true, if_false, if_true]

theorem dispatch_unknown_eq {env : Env} {p : Path} (fs : FS) (d : Path)
    (h : classifyFile env p = .unknown) :
    extract_nested_archives env fs p d = ⟨fs, none, []⟩ := by
  rcases classifyFile_unknown_elim h with henv | ⟨raw, henv, hc1, hc2, hc3, hc4, hc5⟩
  · unfold extract_nested_archives
    rw [henv]
  · unfold extract_nested_archives
    rw [henv]
    simp only [hc1, hc2, hc3, hc4, hc5, Bool.false_eq_true, if_false]

/-! ### Helper lemmas: the recursion controller -/

theorem rxLoop_visits_pred (env : Env) (recurse : FS → Path → RXResult) (curD : Nat)
    (P : Visit → Prop)
    (hrec : ∀ fs tgt, ∀ v ∈ (recurse fs tgt).visits, P v)
    (hdir : ∀ p s, hasMarker p = false → P ⟨p, curD, s⟩) :
    ∀ (files : List Path) (fs : FS), ∀ v ∈ (rxLoop env recurse curD files fs).visits, P v := by
  intro files
  induction files with
  | nil =>
    intro fs v hv
    simp only [rxLoop] at hv
    exact absurd hv (List.not_mem_nil v)
  | cons p rest ih =>
    intro fs v hv
    simp only [rxLoop] at hv
    by_cases hm : hasMarker p = true
    · rw [if_pos hm] at hv
      exact ih fs v hv
    · rw [if_neg hm] at hv
      have hm' : hasMarker p = false := by
        rw [Bool.not_eq_true] at hm
        exact hm
      cases hout : (extract_nested_archives env fs p (parentOf p)).outcome with
      | none =>
        rw [hout] at hv
        simp only [List.mem_cons] at hv
        rcases hv with hv | hv
        · rw [hv]; exact hdir p false hm'
        · exact ih _ v hv
      | some tgt =>
        rw [hout] at hv
        simp only [List.mem_cons, List.mem_append] at hv
        rcases hv with hv | hv | hv
        · rw [hv]; exact hdir p true hm'
        · exact hrec _ tgt v hv
        · exact ih _ v hv

theorem rxGo_visits_marker_depth (env : Env) (maxD : Nat) :
    ∀ (b curD : Nat) (fs : FS) (dir : Path),
      ∀ v ∈ (rxGo env maxD b curD fs dir).visits,
        hasMarker v.path = false ∧ curD ≤ v.depth := by
  intro b
  induction b with
  | zero =>
    intro curD fs dir v hv
    exact absurd hv (List.not_mem_nil v)
  | succ b ih =>
    intro curD fs dir v hv
    simp only [rxGo] at hv
    refine rxLoop_visits_pred env _ curD
      (fun v => hasMarker v.path = false ∧ curD ≤ v.depth) ?_ ?_ (filesUnder fs dir) fs v hv
    · intro fs1 tgt v hv'
      obtain ⟨h1, h2⟩ := ih (curD + 1) fs1 tgt v hv'
      exact ⟨h1, by omega⟩
    · intro q s hq
      exact ⟨hq, Nat.le_refl curD⟩

theorem rxGo_visits_depth_lt (env : Env) (maxD : Nat) :
    ∀ (b curD : Nat), b + curD ≤ maxD → ∀ (fs : FS) (dir : Path),
      ∀ v ∈ (rxGo env maxD b curD fs dir).visits, v.depth < maxD := by
  intro b
  induction b with
  | zero =>
    intro curD _ fs dir v hv
    exact absurd hv (List.not_mem_nil v)
  | succ b ih =>
    intro curD hle fs dir v hv
    simp only [rxGo] at hv
    refine rxLoop_visits_pred env _ curD (fun v => v.depth < maxD) ?_ ?_
      (filesUnder fs dir) fs v hv
    · intro fs1 tgt v hv'
      exact ih (curD + 1) (by omega) fs1 tgt v hv'
    · intro q s _
      show curD < maxD
      omega

theorem rxLoop_flag_iff (env : Env) (recurse : FS → Path → RXResult) (curD : Nat) :
    ∀ (files : List Path) (fs : FS),
      ((rxLoop env recurse curD files fs).flag = true ↔
        ∃ v ∈ (rxLoop env recurse curD files fs).visits,
          v.depth = curD ∧ v.success = true) := by
  intro files
  induction files with
  | nil =>
    intro fs
    simp [rxLoop]
  | cons p rest ih =>
    intro fs
    simp only [rxLoop]
    by_cases hm : hasMarker p = true
    · rw [if_pos hm]
      exact ih fs
    · rw [if_neg hm]
      cases hout : (extract_nested_archives env fs p (parentOf p)).outcome with
      | none =>
        constructor
        · intro hf
          obtain ⟨v, hv, hd, hs⟩ := (ih _).mp hf
          exact ⟨v, List.mem_cons_of_mem _ hv, hd, hs⟩
        · rintro ⟨v, hv, hd, hs⟩
          rcases List.mem_cons.mp hv with hv | hv
          · rw [hv] at hs
            simp at hs
          · exact (ih _).mpr ⟨v, hv, hd, hs⟩
      | some tgt =>
        constructor
        · intro _
          exact ⟨⟨p, curD, true⟩, List.mem_cons_self _ _, rfl, rfl⟩
        · intro _
          rfl

theorem recursive_extract_unfold (env : Env) (fs : FS) (dir : Path) (maxD curD : Nat) :
    recursive_extract env fs dir maxD curD =
      if maxD ≤ curD then ⟨fs, none, []⟩
      else
        ⟨(rxLoop env (fun fs1 tgt => recursive_extract env fs1 tgt maxD (curD + 1))
            curD (filesUnder fs dir) fs).fs,
         some (rxLoop env (fun fs1 tgt => recursive_extract env fs1 tgt maxD (curD + 1))
            curD (filesUnder fs dir) fs).flag,
         (rxLoop env (fun fs1 tgt => recursive_extract env fs1 tgt maxD (curD + 1))
            curD (filesUnder fs dir) fs).visits⟩ := by
  by_cases h : maxD ≤ curD
  · rw [if_pos h]
    unfold recursive_extract
    rw [Nat.sub_eq_zero_of_le h]
    rfl
  · rw [if_neg h]
    unfold recursive_extract
    have h2 : maxD - curD = (maxD - (curD + 1)) + 1 := by omega
    rw [h2]
    rfl

/-! ### Helper lemmas: folds and the squashfs loop -/

theorem mem_foldl_append {α β : Type} (g : β → List α) (l : List β) (init : List α) (x : α) :
    x ∈ l.foldl (fun acc r => acc ++ g r) init ↔ x ∈ init ∨ ∃ r ∈ l, x ∈ g r := by
  induction l generalizing init with
  | nil => simp
  | cons r l ih =>
    rw [List.foldl_cons, ih]
    constructor
    · rintro (h | ⟨r1, hr1, hx⟩)
      · rcases List.mem_append.mp h with h | h
        · exact Or.inl h
        · exact Or.inr ⟨r, List.mem_cons_self r l, h⟩
      · exact Or.inr ⟨r1, List.mem_cons_of_mem r hr1, hx⟩
    · rintro (h | ⟨r1, hr1, hx⟩)
      · exact Or.inl (List.mem_append.mpr (Or.inl h))
      · rcases List.mem_cons.mp hr1 with hr1 | hr1
        · rw [hr1] at hx
          exact Or.inl (List.mem_append.mpr (Or.inr hx))
        · exact Or.inr ⟨r1, hr1, hx⟩

theorem mem_collect_iff (env : Env) (fs : FS) (roots : List Path) (f : Path) :
    f ∈ collect_executables env fs roots ↔
      ∃ root ∈ roots, f ∈ filesUnder fs root ∧ isExecRecord env f = true := by
  unfold collect_executables
  rw [mem_foldl_append]
  simp [List.mem_filter]

theorem squashLoop_all_fail (env : Env) (p subdir : Path)
    (h1 : env.toolAvailable "unsquashfs" = false ∨ env.runTool "unsquashfs" p subdir = false)
    (h2 : env.toolAvailable "sasquatch" = false ∨ env.runTool "sasquatch" p subdir = false) :
    (squashLoop env p subdir ["unsquashfs", "sasquatch"]).1 = none ∧
    WarnMsg.squashUnresolved ∈ warnsIn (squashLoop env p subdir ["unsquashfs", "sasquatch"]).2 := by
  by_cases ha1 : env.toolAvailable "unsquashfs" <;>
  by_cases hr1 : env.runTool "unsquashfs" p subdir <;>
  by_cases ha2 : env.toolAvailable "sasquatch" <;>
  by_cases hr2 : env.runTool "sasquatch" p subdir <;>
    simp_all [squashLoop, check_tool_available, warnsIn]

/-! ### The claims -/

/-- Claim C1: during a run of the recursive extraction pass, no path whose
    string carries an extraction marker is ever classified or dispatched:
    every visit recorded by `recursive_extract` is marker-free, because the
    guard filters such paths before `extract_nested_archives` is applied. -/
theorem marker_paths_never_dispatched (env : Env) (fs : FS) (dir : Path) (maxD curD : Nat) :
    ∀ v ∈ (recursive_extract env fs dir maxD curD).visits, hasMarker v.path = false := by
  intro v hv
  exact (rxGo_visits_marker_depth env maxD (maxD - curD) curD fs dir v hv).1

/-- Evaluation witness for `marker_paths_never_dispatched`: a concrete run
    over a tree that also holds a marker path. -/
theorem marker_paths_never_dispatched_witness :
    hasMarker (Visit.mk ["r", "f"] 0 false).path = false :=
  marker_paths_never_dispatched trivEnv fsOne ["r"] 5 0 ⟨["r", "f"], 0, false⟩ (by decide)

/-- Claim C2: the depth at which `recursive_extract` visits any node stays
    strictly below the configured maximum, and a call entered at or beyond
    the bound returns immediately: no classification, no dispatch, no
    filesystem change, and the bare Python return value. -/
theorem visit_depth_below_bound (env : Env) (fs : FS) (dir : Path) (maxD curD : Nat) :
    (∀ v ∈ (recursive_extract env fs dir maxD curD).visits, v.depth < maxD) ∧
    (maxD ≤ curD → recursive_extract env fs dir maxD curD = ⟨fs, none, []⟩) := by
  constructor
  · intro v hv
    by_cases h : curD ≤ maxD
    · exact rxGo_visits_depth_lt env maxD (maxD - curD) curD (by omega) fs dir v hv
    · unfold recursive_extract at hv
      rw [Nat.sub_eq_zero_of_le (by omega)] at hv
      exact absurd hv (List.not_mem_nil v)
  · intro h
    unfold recursive_extract
    rw [Nat.sub_eq_zero_of_le h]
    rfl

/-- Evaluation witness for `visit_depth_below_bound`: a visit of a concrete
    run is below the bound, and a call entered beyond the bound is a no-op. -/
theorem visit_depth_below_bound_witness :
    (Visit.mk ["r", "f"] 0 false).depth < 5 ∧
    recursive_extract trivEnv fsOne ["r"] 3 7 = ⟨fsOne, none, []⟩ :=
  ⟨(visit_depth_below_bound trivEnv fsOne ["r"] 5 0).1 ⟨["r", "f"], 0, false⟩ (by decide),
   (visit_depth_below_bound trivEnv fsOne ["r"] 3 7).2 (by decide)⟩

/-- Claim C3: a file whose name is the stem `b` plus the gz extension,
    classified as gzip and successfully decompressed, yields exactly one
    new file at the sibling path with the suffix stripped, holding the
    decompressed payload; that path is the reported outcome, and no other
    file changes. -/
theorem gzip_extraction_functional (env : Env) (fs : FS) (p d : Path) (b : String)
    (content data : Bytes)
    (hname : nameOf p = b ++ ".gz") (hb : b.toList ≠ [])
    (hclass : classifyFile env p = .gzip)
    (hread : readFile fs p = some content) (hgz : env.gunzip content = some data) :
    (extract_nested_archives env fs p d).outcome = some (parentOf p ++ [b]) ∧
    (extract_nested_archives env fs p d).fs = writeFile fs (parentOf p ++ [b]) data ∧
    readFile (extract_nested_archives env fs p d).fs (parentOf p ++ [b]) = some data ∧
    (∀ q, q ≠ parentOf p ++ [b] →
      readFile (extract_nested_archives env fs p d).fs q = readFile fs q) := by
  have hq : with_suffix_empty p = parentOf p ++ [b] := by
    unfold with_suffix_empty
    rw [hname, stripLastSuffix_append_gz b hb]
  have htl : (b ++ ".gz").toList = b.toList ++ ['.', 'g', 'z'] := by
    rw [string_append_toList]
    rfl
  have hname_ne : nameOf p ≠ b := by
    rw [hname]
    intro he
    have h2 := congrArg String.toList he
    rw [htl] at h2
    have h3 := congrArg List.length h2
    rw [List.length_append] at h3
    have h4 : (['.', 'g', 'z'] : List Char).length = 3 := rfl
    rw [h4] at h3
    omega
  have hpq : p ≠ parentOf p ++ [b] := by
    intro heq
    apply hname_ne
    unfold nameOf
    rw [heq, List.getLast?_concat]
    rfl
  have hread1 : readFile (writeFile fs (parentOf p ++ [b]) []) p = some content := by
    rw [readFile_writeFile_other fs (parentOf p ++ [b]) p [] hpq]
    exact hread
  have hbind : (readFile (writeFile fs (with_suffix_empty p) []) p).bind env.gunzip =
      some data := by
    rw [hq, hread1]
    exact hgz
  rw [dispatch_gzip_success_eq fs d hclass hbind, hq]
  refine ⟨rfl, rfl, readFile_writeFile_same fs _ data, ?_⟩
  intro q hqne
  exact readFile_writeFile_other fs _ q data hqne

/-- Evaluation witness for `gzip_extraction_functional` at a concrete
    gzip-classified file. -/
theorem gzip_extraction_functional_witness :
    (extract_nested_archives envGz fsGz ["r", "b.gz"] ["r"]).outcome = some ["r", "b"] ∧
    (extract_nested_archives envGz fsGz ["r", "b.gz"] ["r"]).fs =
      writeFile fsGz ["r", "b"] [7, 8, 9] ∧
    readFile (extract_nested_archives envGz fsGz ["r", "b.gz"] ["r"]).fs ["r", "b"] =
      some [7, 8, 9] ∧
    readFile (extract_nested_archives envGz fsGz ["r", "b.gz"] ["r"]).fs ["r", "x"] =
      readFile fsGz ["r", "x"] := by
  have h := gzip_extraction_functional envGz fsGz ["r", "b.gz"] ["r"] "b" [1, 2] [7, 8, 9]
    (by decide) (by decide) (by decide) (by decide) (by decide)
  exact ⟨h.1, h.2.1, h.2.2.1, h.2.2.2 ["r", "x"] (by decide)⟩

/-- Claim C4 as stated is false: a failing cpio invocation yields the
    no-extraction outcome with no warning at all, refuting the rule that
    every internal tool failure is accompanied by a logged warning. -/
theorem dispatch_failure_without_warning : ¬ dispatchWarnsOnFailure := by
  intro h
  obtain ⟨w, hw⟩ := h envCpioFail fsOne ["r", "f"] ["r"] (by decide) (by decide)
  have ht : (extract_nested_archives envCpioFail fsOne ["r", "f"] ["r"]).trace =
      [.mkdirEv ["r", "f_cpio"], .toolRun "cpio" false] := by decide
  rw [ht] at hw
  simp at hw

/-- Claim C4, amended: the dispatch never escapes with an error — every
    internal tool failure yields the no-extraction outcome; gzip, tar and
    squashfs failures and a missing jffs2 tool log a warning, while a
    failing jffs2 or cpio tool invocation logs nothing; unknown inputs are
    complete no-ops. -/
theorem dispatch_failures_degrade (env : Env) (fs : FS) (p d : Path) :
    (classifyFile env p = .gzip →
      (readFile (writeFile fs (with_suffix_empty p) []) p).bind env.gunzip = none →
      (extract_nested_archives env fs p d).outcome = none ∧
      WarnMsg.gzipFailed ∈ warnsIn (extract_nested_archives env fs p d).trace) ∧
    (classifyFile env p = .tar → (readFile fs p).bind env.tarMembers = none →
      (extract_nested_archives env fs p d).outcome = none ∧
      WarnMsg.tarFailed ∈ warnsIn (extract_nested_archives env fs p d).trace) ∧
    (classifyFile env p = .squashfs →
      (env.toolAvailable "unsquashfs" = false ∨
        env.runTool "unsquashfs" p (d ++ [stemOf p ++ "_squashfs"]) = false) →
      (env.toolAvailable "sasquatch" = false ∨
        env.runTool "sasquatch" p (d ++ [stemOf p ++ "_squashfs"]) = false) →
      (extract_nested_archives env fs p d).outcome = none ∧
      WarnMsg.squashUnresolved ∈ warnsIn (extract_nested_archives env fs p d).trace) ∧
    (classifyFile env p = .jffs2 → env.toolAvailable "jefferson" = false →
      (extract_nested_archives env fs p d).outcome = none ∧
      WarnMsg.jffs2Unavailable ∈ warnsIn (extract_nested_archives env fs p d).trace) ∧
    (classifyFile env p = .jffs2 → env.toolAvailable "jefferson" = true →
      env.runTool "jefferson" p (d ++ [stemOf p ++ "_jffs2"]) = false →
      (extract_nested_archives env fs p d).outcome = none ∧
      warnsIn (extract_nested_archives env fs p d).trace = []) ∧
    (classifyFile env p = .cpio →
      env.runTool "cpio" p (d ++ [stemOf p ++ "_cpio"]) = false →
      (extract_nested_archives env fs p d).outcome = none ∧
      warnsIn (extract_nested_archives env fs p d).trace = []) ∧
    (classifyFile env p = .unknown →
      extract_nested_archives env fs p d = ⟨fs, none, []⟩) := by
  refine ⟨?_, ?_, ?_, ?_, ?_, ?_, ?_⟩
  · intro h hfail
    rw [dispatch_gzip_failure_eq fs d h hfail]
    exact ⟨rfl, by simp [warnsIn]⟩
  · intro h hfail
    rw [dispatch_tar_eq fs d h, hfail]
    exact ⟨rfl, by simp [warnsIn]⟩
  · intro h h1 h2
    rw [dispatch_squashfs_eq fs d h]
    obtain ⟨ho, hw⟩ := squashLoop_all_fail env p (d ++ [stemOf p ++ "_squashfs"]) h1 h2
    refine ⟨ho, ?_⟩
    simpa [warnsIn] using hw
  · intro h hna
    rw [dispatch_jffs2_eq fs d h]
    simp [hna, warnsIn]
  · intro h ha hr
    rw [dispatch_jffs2_eq fs d h]
    simp [ha, hr, warnsIn]
  · intro h hr
    rw [dispatch_cpio_eq fs d h]
    simp [hr, warnsIn]
  · intro h
    exact dispatch_unknown_eq fs d h

/-- Evaluation witness for `dispatch_failures_degrade`: a failing gzip
    decompression degrades to no extraction plus a warning. -/
theorem dispatch_failures_degrade_witness :
    (extract_nested_archives envGzFail fsOne ["r", "f"] ["r"]).outcome = none ∧
    WarnMsg.gzipFailed ∈ warnsIn (extract_nested_archives envGzFail fsOne ["r", "f"] ["r"]).trace :=
  (dispatch_failures_degrade envGzFail fsOne ["r", "f"] ["r"]).1 (by decide) (by decide)

/-- Claim C5: a file below one of the scanned roots appears in the
    executable manifest exactly when the execute bit is set and the content
    inspection reports an executable indicator; a file failing either test
    never appears. -/
theorem executable_scanner_membership (env : Env) (fs : FS) (roots : List Path) (f : Path) :
    ((∃ root ∈ roots, f ∈ filesUnder fs root) →
      (f ∈ collect_executables env fs roots ↔
        env.xok f = true ∧ execIndicator env f = true)) ∧
    (env.xok f = false ∨ execIndicator env f = false →
      f ∉ collect_executables env fs roots) := by
  constructor
  · rintro ⟨root, hroot, hf⟩
    rw [mem_collect_iff]
    constructor
    · rintro ⟨r, hr, _, hexec⟩
      unfold isExecRecord at hexec
      exact (Bool.and_eq_true _ _).mp hexec
    · rintro ⟨hx, hi⟩
      refine ⟨root, hroot, hf, ?_⟩
      unfold isExecRecord
      rw [hx, hi]
      rfl
  · intro hneg hmem
    rw [mem_collect_iff] at hmem
    obtain ⟨r, hr, _, hexec⟩ := hmem
    unfold isExecRecord at hexec
    obtain ⟨hx, hi⟩ := (Bool.and_eq_true _ _).mp hexec
    rcases hneg with hneg | hneg
    · rw [hneg] at hx
      exact absurd hx (by decide)
    · rw [hneg] at hi
      exact absurd hi (by decide)

/-- Evaluation witness for `executable_scanner_membership`: the concrete
    executable ELF file is collected, the plain-text non-executable file is
    not. -/
theorem executable_scanner_membership_witness :
    ["r", "f"] ∈ collect_executables envExec fsExec [["r"]] ∧
    ["r", "t"] ∉ collect_executables envExec fsExec [["r"]] :=
  ⟨((executable_scanner_membership envExec fsExec [["r"]] ["r", "f"]).1
      ⟨["r"], List.mem_cons_self _ _, by decide⟩).mpr ⟨by decide, by decide⟩,
   (executable_scanner_membership envExec fsExec [["r"]] ["r", "t"]).2 (Or.inl (by decide))⟩

/-- Claim C6: on a squashfs-classified input the namespaced subdirectory is
    created (and created first); if the first tool is absent or fails, the
    loop reaches sasquatch — checking it and invoking it when available —
    before the outcome can become no-extraction, and the first successful
    tool determines the outcome. -/
theorem squashfs_tool_fallback (env : Env) (fs : FS) (p d : Path)
    (h : classifyFile env p = .squashfs) :
    (d ++ [stemOf p ++ "_squashfs"]) ∈ (extract_nested_archives env fs p d).fs.dirs ∧
    (extract_nested_archives env fs p d).trace.head? =
      some (.mkdirEv (d ++ [stemOf p ++ "_squashfs"])) ∧
    (env.toolAvailable "unsquashfs" = true →
      env.runTool "unsquashfs" p (d ++ [stemOf p ++ "_squashfs"]) = true →
      (extract_nested_archives env fs p d).outcome = some (d ++ [stemOf p ++ "_squashfs"]) ∧
      "sasquatch" ∉ toolRunsIn (extract_nested_archives env fs p d).trace) ∧
    ((env.toolAvailable "unsquashfs" = false ∨
        env.runTool "unsquashfs" p (d ++ [stemOf p ++ "_squashfs"]) = false) →
      TraceEv.toolCheck "sasquatch" (env.toolAvailable "sasquatch") ∈
        (extract_nested_archives env fs p d).trace ∧
      (env.toolAvailable "sasquatch" = true →
        TraceEv.toolRun "sasquatch" (env.runTool "sasquatch" p (d ++ [stemOf p ++ "_squashfs"])) ∈
          (extract_nested_archives env fs p d).trace) ∧
      (env.toolAvailable "sasquatch" = true →
        env.runTool "sasquatch" p (d ++ [stemOf p ++ "_squashfs"]) = true →
        (extract_nested_archives env fs p d).outcome = some (d ++ [stemOf p ++ "_squashfs"])) ∧
      ((env.toolAvailable "sasquatch" = false ∨
          env.runTool "sasquatch" p (d ++ [stemOf p ++ "_squashfs"]) = false) →
        (extract_nested_archives env fs p d).outcome = none)) := by
  rw [dispatch_squashfs_eq fs d h]
  refine ⟨mem_mkdirFS fs _, rfl, ?_, ?_⟩
  · intro ha hr
    constructor
    · simp [squashLoop, check_tool_available, ha, hr]
    · simp [squashLoop, check_tool_available, ha, hr, toolRunsIn]
  · intro h1
    rcases h1 with h1 | h1
    · by_cases ha2 : env.toolAvailable "sasquatch"
      · by_cases hr2 : env.runTool "sasquatch" p (d ++ [stemOf p ++ "_squashfs"]) <;>
          simp [squashLoop, check_tool_available, h1, ha2, hr2]
      · simp [squashLoop, check_tool_available, h1, ha2]
    · by_cases ha1 : env.toolAvailable "unsquashfs"
      · by_cases ha2 : env.toolAvailable "sasquatch"
        · by_cases hr2 : env.runTool "sasquatch" p (d ++ [stemOf p ++ "_squashfs"]) <;>
            simp [squashLoop, check_tool_available, ha1, h1, ha2, hr2]
        · simp [squashLoop, check_tool_available, ha1, h1, ha2]
      · by_cases ha2 : env.toolAvailable "sasquatch"
        · by_cases hr2 : env.runTool "sasquatch" p (d ++ [stemOf p ++ "_squashfs"]) <;>
            simp [squashLoop, check_tool_available, ha1, h1, ha2, hr2]
        · simp [squashLoop, check_tool_available, ha1, h1, ha2]

/-- Evaluation witness for `squashfs_tool_fallback`: with the first tool
    absent and sasquatch succeeding, sasquatch is invoked and wins. -/
theorem squashfs_tool_fallback_witness :
    (["r", "f_squashfs"] : Path) ∈
      (extract_nested_archives envSquashSecond fsOne ["r", "f"] ["r"]).fs.dirs ∧
    TraceEv.toolRun "sasquatch"
        (envSquashSecond.runTool "sasquatch" ["r", "f"] ["r", "f_squashfs"]) ∈
      (extract_nested_archives envSquashSecond fsOne ["r", "f"] ["r"]).trace ∧
    (extract_nested_archives envSquashSecond fsOne ["r", "f"] ["r"]).outcome =
      some ["r", "f_squashfs"] := by
  have h := squashfs_tool_fallback envSquashSecond fsOne ["r", "f"] ["r"] (by decide)
  obtain ⟨h1, _, _, h4⟩ := h
  obtain ⟨_, h5, h6, _⟩ := h4 (Or.inl (by decide))
  exact ⟨h1, h5 (by decide), h6 (by decide) (by decide)⟩

/-- Claim C7: on an unknown signature the dispatch mutates nothing — the
    filesystem is returned unchanged, the outcome is no-extraction, and no
    event at all is emitted. -/
theorem unknown_dispatch_no_mutation (env : Env) (fs : FS) (p d : Path)
    (h : classifyFile env p = .unknown) :
    (extract_nested_archives env fs p d).fs = fs ∧
    (extract_nested_archives env fs p d).outcome = none ∧
    (extract_nested_archives env fs p d).trace = [] := by
  rw [dispatch_unknown_eq fs d h]
  exact ⟨rfl, rfl, rfl⟩

/-- Evaluation witness for `unknown_dispatch_no_mutation` at a file the
    inspection command fails on. -/
theorem unknown_dispatch_no_mutation_witness :
    (extract_nested_archives trivEnv fsOne ["r", "f"] ["r"]).fs = fsOne ∧
    (extract_nested_archives trivEnv fsOne ["r", "f"] ["r"]).outcome = none ∧
    (extract_nested_archives trivEnv fsOne ["r", "f"] ["r"]).trace = [] :=
  unknown_dispatch_no_mutation trivEnv fsOne ["r", "f"] ["r"] (by decide)

/-- Claim C8 as stated is false: a call entered at the depth bound does not
    return a boolean at all — the Python function takes the bare `return`
    path, modelled as `ret = none`. -/
theorem recursive_extract_at_bound_no_boolean :
    ¬ ∃ flag : Bool, (recursive_extract trivEnv fsOne ["r"] 5 5).ret = some flag := by
  rintro ⟨flag, hflag⟩
  simp [recursive_extract, rxGo] at hflag

/-- Claim C8, amended: entered below the bound, `recursive_extract` returns
    a boolean that is true exactly when some file visited at the depth of
    the call itself was successfully extracted; entered at or beyond the
    bound it returns `None` (no boolean) and does nothing. -/
theorem recursive_extract_returns (env : Env) (fs : FS) (dir : Path) (maxD curD : Nat) :
    (maxD ≤ curD → recursive_extract env fs dir maxD curD = ⟨fs, none, []⟩) ∧
    (curD < maxD → ∃ flag : Bool,
      (recursive_extract env fs dir maxD curD).ret = some flag ∧
      (flag = true ↔ ∃ v ∈ (recursive_extract env fs dir maxD curD).visits,
        v.depth = curD ∧ v.success = true)) := by
  constructor
  · intro h
    unfold recursive_extract
    rw [Nat.sub_eq_zero_of_le h]
    rfl
  · intro h
    unfold recursive_extract
    obtain ⟨b, hb⟩ : ∃ b, maxD - curD = b + 1 := ⟨maxD - curD - 1, by omega⟩
    rw [hb]
    exact ⟨_, rfl, rxLoop_flag_iff env _ curD (filesUnder fs dir) fs⟩

/-- Evaluation witness for `recursive_extract_returns` at both sides of the
    bound. -/
theorem recursive_extract_returns_witness :
    recursive_extract trivEnv fsOne ["r"] 3 7 = ⟨fsOne, none, []⟩ ∧
    ∃ flag : Bool, (recursive_extract trivEnv fsOne ["r"] 5 0).ret = some flag ∧
      (flag = true ↔ ∃ v ∈ (recursive_extract trivEnv fsOne ["r"] 5 0).visits,
        v.depth = 0 ∧ v.success = true) :=
  ⟨(recursive_extract_returns trivEnv fsOne ["r"] 3 7).1 (by decide),
   (recursive_extract_returns trivEnv fsOne ["r"] 5 0).2 (by decide)⟩

/-- Claim C9 as stated is false at its focal case: a dotless gzip file
    whose bytes decompress to a non-empty payload is reported as extracted
    onto its own path, yet the file ends up empty — the output is truncated
    before the lazy gzip stream is read, so the decompressed payload never
    reaches it. -/
theorem gzip_dotless_not_overwritten_with_payload :
    readFile fsOne ["r", "f"] = some [1, 2] ∧
    envGzEmpty.gunzip [1, 2] = some [7, 8, 9] ∧
    classifyFile envGzEmpty ["r", "f"] = .gzip ∧
    with_suffix_empty ["r", "f"] = ["r", "f"] ∧
    (extract_nested_archives envGzEmpty fsOne ["r", "f"] ["r"]).outcome = some ["r", "f"] ∧
    readFile (extract_nested_archives envGzEmpty fsOne ["r", "f"] ["r"]).fs ["r", "f"] ≠
      some [7, 8, 9] := by
  decide

/-- Claim C9, amended: the gzip output path is always the input with the
    final dot-suffix of its name removed, whatever that suffix is (a
    successful extraction reports that path and leaves the decompressed
    stream there); a dotless name has its own path as output, and since
    the output is truncated before the stream is read, the source is
    destroyed: the decompressor sees empty input, and — the real gzip
    module mapping an empty stream to empty output — the run reports
    success while the file is left empty, not holding the decompressed
    payload. -/
theorem gzip_output_strips_final_suffix (env : Env) (fs : FS) (p d : Path)
    (hclass : classifyFile env p = .gzip) :
    (∀ data, (readFile (writeFile fs (with_suffix_empty p) []) p).bind env.gunzip =
        some data →
      (extract_nested_archives env fs p d).outcome = some (with_suffix_empty p) ∧
      readFile (extract_nested_archives env fs p d).fs (with_suffix_empty p) = some data) ∧
    (∀ (b ext : String), nameOf p = b ++ "." ++ ext → b.toList ≠ [] → ext.toList ≠ [] →
      '.' ∉ ext.toList → with_suffix_empty p = parentOf p ++ [b]) ∧
    (p ≠ [] → '.' ∉ (nameOf p).toList →
      with_suffix_empty p = p ∧
      readFile (writeFile fs (with_suffix_empty p) []) p = some [] ∧
      (env.gunzip [] = some [] →
        (extract_nested_archives env fs p d).outcome = some p ∧
        readFile (extract_nested_archives env fs p d).fs p = some [])) := by
  refine ⟨?_, ?_, ?_⟩
  · intro data hbind
    rw [dispatch_gzip_success_eq fs d hclass hbind]
    exact ⟨rfl, readFile_writeFile_same fs _ data⟩
  · intro b ext hne hb he hdot
    unfold with_suffix_empty
    rw [hne, stripLastSuffix_dot_ext b ext hb he hdot]
  · intro hp hdot
    have hws : with_suffix_empty p = p := by
      unfold with_suffix_empty
      rw [stripLastSuffix_of_no_dot hdot]
      exact (path_decomp p hp).symm
    have htrunc : readFile (writeFile fs (with_suffix_empty p) []) p = some [] := by
      rw [hws]
      exact readFile_writeFile_same fs p []
    refine ⟨hws, htrunc, ?_⟩
    intro hge
    have hbind : (readFile (writeFile fs (with_suffix_empty p) []) p).bind env.gunzip =
        some [] := by
      rw [htrunc]
      exact hge
    rw [dispatch_gzip_success_eq fs d hclass hbind, hws]
    exact ⟨rfl, readFile_writeFile_same fs p []⟩

/-- Evaluation witness for `gzip_output_strips_final_suffix`: on a concrete
    dotless gzip-classified file the run reports success onto the own path
    while the file is left empty. -/
theorem gzip_output_strips_final_suffix_witness :
    with_suffix_empty ["r", "f"] = ["r", "f"] ∧
    readFile (writeFile fsOne (with_suffix_empty ["r", "f"]) []) ["r", "f"] = some [] ∧
    (extract_nested_archives envGzEmpty fsOne ["r", "f"] ["r"]).outcome = some ["r", "f"] ∧
    readFile (extract_nested_archives envGzEmpty fsOne ["r", "f"] ["r"]).fs ["r", "f"] =
      some [] := by
  have h := gzip_output_strips_final_suffix envGzEmpty fsOne ["r", "f"] ["r"] (by decide)
  obtain ⟨_, _, h3⟩ := h
  obtain ⟨h4, h5, h6⟩ := h3 (by decide) (by decide)
  obtain ⟨h7, h8⟩ := h6 (by decide)
  exact ⟨h4, h5, h7, h8⟩

/-- Claim C10: after `cleanup_output_dir` no top-level symlink survives and
    no top-level regular file named with the rar or bin extension survives;
    and in the run, cleanup happens before the prerequisite-tool check, the
    binwalk invocation, and all extraction work. -/
theorem cleanup_removes_conflicts_before_work (items : List DirItem) :
    (∀ it ∈ cleanup_output_dir items,
      it.kind ≠ .symlink ∧
      (it.kind = .regularFile →
        strEndsWith it.name ".rar" = false ∧ strEndsWith it.name ".bin" = false)) ∧
    (stepIdx .cleanupStep < stepIdx (.prereqCheck "binwalk") ∧
     stepIdx .cleanupStep < stepIdx .binwalkRun ∧
     stepIdx .cleanupStep < stepIdx .nestedExtraction) := by
  constructor
  · intro it hit
    unfold cleanup_output_dir at hit
    obtain ⟨_, hcond⟩ := List.mem_filter.mp hit
    have hc : conflicting it = false := by
      cases hcf : conflicting it
      · rfl
      · rw [hcf] at hcond
        exact absurd hcond (by decide)
    unfold conflicting at hc
    rw [Bool.or_eq_false_iff, Bool.or_eq_false_iff, decide_eq_false_iff_not] at hc
    exact ⟨hc.1.1, fun _ => ⟨hc.1.2, hc.2⟩⟩
  · decide

/-- Evaluation witness for `cleanup_removes_conflicts_before_work` on a
    concrete listing. -/
theorem cleanup_removes_conflicts_before_work_witness :
    (DirItem.mk "keep.txt" .regularFile).kind ≠ .symlink ∧
    strEndsWith (DirItem.mk "keep.txt" .regularFile).name ".rar" = false ∧
    strEndsWith (DirItem.mk "keep.txt" .regularFile).name ".bin" = false := by
  have h := (cleanup_removes_conflicts_before_work itemsDemo).1
    ⟨"keep.txt", .regularFile⟩ (by decide)
  exact ⟨h.1, (h.2 rfl).1, (h.2 rfl).2⟩

end SFA
